import Mathlib

/-!
Verification of the pr-prism triage pipeline.

Shallow embedding conventions:
* JavaScript floating-point numbers are idealized as rationals (`ℚ`); a value
  that may be `NaN` (as produced by out-of-range element access fed into
  arithmetic, or `Math.sqrt` of a negative number) is modelled as `Option ℚ`
  with `none` standing for `NaN`.
* `Math.sqrt` is modelled by an explicit function parameter `sqrtFn : ℚ → ℚ`
  applied to non-negative arguments (negative arguments yield `NaN` in the
  model, as in JavaScript); theorems quantify over `sqrtFn`, so they hold in
  particular for the real square root.  Concrete witnesses instantiate
  `sqrtFn` with `fun q => q`, which agrees with the real square root on the
  values `0` and `1` that those witnesses actually reach.
* `Math.pow(0.5, x)` (the 30-day half-life recency decay) is modelled by an
  explicit function parameter `powHalf : ℚ → ℚ`, and `Date.now()` by an
  explicit parameter `now : ℚ`; an item's `updatedAt` ISO timestamp string is
  modelled directly as its parsed epoch-milliseconds value (`ℚ`).
* JavaScript `Map` objects are modelled as association lists with unique keys
  in insertion order (`mapSet` replaces in place or appends, as `Map.set`
  does); JavaScript `Set` objects used only for membership are modelled as
  plain lists.
* `Array.prototype.sort` with the comparator `(a, b) => b.key - a.key` is a
  stable descending sort; it is modelled by the stable insertion sort
  `sortDescBy`, which produces the same (unique) stable descending ordering.
* The `while` loop of the breadth-first component search is modelled with an
  explicit fuel parameter to keep the definition structurally recursive and
  executable; the wrapper passes `1 + adjTotalSize adj` fuel, which bounds the
  number of loop iterations (each iteration pops one queue element, and the
  total number of queue pushes is at most the total size of all adjacency
  lists, each key being expanded at most once).
-/

/-- A JavaScript number that may be `NaN`: `none` is `NaN`. -/
abbrev JSNum := Option ℚ

/-- Embedding vector (JS `Float32Array` / `number[]`), idealized as exact rationals. -/
abbrev Vec := List ℚ

/-- JS addition; `NaN` propagates. -/
def jadd : JSNum → JSNum → JSNum
  | some a, some b => some (a + b)
  | _, _ => none

/-- JS multiplication; `NaN` propagates.  (Infinities never arise in the
guarded uses below, so they are not modelled.) -/
def jmul : JSNum → JSNum → JSNum
  | some a, some b => some (a * b)
  | _, _ => none

/-- JS division as used under a `denom === 0` guard: the divisor is never `0`
when this is reached, so the division-by-zero case is mapped to `NaN`. -/
def jdiv : JSNum → JSNum → JSNum
  | some a, some b => if b = 0 then none else some (a / b)
  | _, _ => none

/-- JS `Math.sqrt` with a rational stand-in `sqrtFn` for the irrational square
root; `Math.sqrt` of a negative number or `NaN` is `NaN`. -/
def jsqrt (sqrtFn : ℚ → ℚ) : JSNum → JSNum
  | none => none
  | some q => if q < 0 then none else some (sqrtFn q)

/-- JS comparison `b < a` on possibly-`NaN` values: any comparison with `NaN`
is false. -/
def jlt : JSNum → JSNum → Bool
  | some a, some b => decide (a < b)
  | _, _ => false

/-- JS comparison `s >= t` against a plain number; false when `s` is `NaN`. -/
def jge (s : JSNum) (t : ℚ) : Bool :=
  match s with
  | some q => decide (t ≤ q)
  | none => false

/-- Element access `v[i]` as consumed by arithmetic: out of range gives
`undefined`, which behaves as `NaN` in the arithmetic that consumes it. -/
def jsGet (v : Vec) (i : ℕ) : JSNum := v.get? i

/-- Accumulator of the `cosineSimilarity` loop (`dot`, `normA`, `normB`). -/
structure CosAcc where
  dot : JSNum
  normA : JSNum
  normB : JSNum
deriving DecidableEq

/-- One iteration of the `cosineSimilarity` loop body (src/similarity.ts lines 9-13). -/
def cosStep (a b : Vec) (acc : CosAcc) (i : ℕ) : CosAcc :=
  { dot := jadd acc.dot (jmul (jsGet a i) (jsGet b i)),
    normA := jadd acc.normA (jmul (jsGet a i) (jsGet a i)),
    normB := jadd acc.normB (jmul (jsGet b i) (jsGet b i)) }

/-- The `for (let i = 0; i < a.length; i++)` loop of `cosineSimilarity`. -/
def cosLoop (a b : Vec) : CosAcc :=
  (List.range a.length).foldl (cosStep a b) ⟨some 0, some 0, some 0⟩

/-- `cosineSimilarity` from src/similarity.ts: iterates over the indices of the
first argument only, then returns `0` when the product of norms is exactly `0`
and the quotient otherwise. -/
def cosineSimilarity (sqrtFn : ℚ → ℚ) (a b : Vec) : JSNum :=
  let acc := cosLoop a b
  let denom := jmul (jsqrt sqrtFn acc.normA) (jsqrt sqrtFn acc.normB)
  if denom = some 0 then some 0 else jdiv acc.dot denom

/-- `isZeroVector` from src/similarity.ts: true iff every component is exactly 0. -/
def isZeroVector (v : Vec) : Bool := v.all fun x => decide (x = 0)

/-- CI status of a pull request (src/types.ts). -/
inductive CIStatus where
  | success
  | failure
  | pending
  | unknown
deriving DecidableEq

/-- Item kind: pull request or issue (src/types.ts). -/
inductive ItemType where
  | pr
  | issue
deriving DecidableEq

/-- String form of an `ItemType`, as used in composite keys. -/
def ItemType.str : ItemType → String
  | .pr => "pr"
  | .issue => "issue"

/-- `PRItem` from src/types.ts, restricted to the fields the scorer and the
clustering engine read.  `updatedAt` is the parsed epoch-milliseconds value of
the ISO timestamp string. -/
structure PRItem where
  number : ℕ
  itemType : ItemType
  title : String
  body : String
  author : String
  updatedAt : ℚ
  ciStatus : Option CIStatus
  reviewCount : Option ℕ
  additions : Option ℕ
  deletions : Option ℕ
  hasTests : Option Bool
deriving DecidableEq

/-- `ScoreSignals` from src/types.ts. -/
structure ScoreSignals where
  hasTests : ℚ
  ciPassing : ℚ
  diffSize : ℚ
  authorHistory : ℚ
  descriptionQuality : ℚ
  reviewApprovals : ℚ
  recency : ℚ
deriving DecidableEq

/-- `ScoredPR` from src/types.ts (`PRItem` spread plus `score` and `signals`). -/
structure ScoredPR where
  item : PRItem
  score : ℚ
  signals : ScoreSignals
deriving DecidableEq

/-- Scoring weights from src/config.ts (`ScoringWeightsSchema`). -/
structure ScoringWeights where
  has_tests : ℚ
  ci_passing : ℚ
  diff_size_penalty : ℚ
  author_history : ℚ
  description_quality : ℚ
  review_approvals : ℚ
deriving DecidableEq

/-- The `scoring` section of the config (src/config.ts). -/
structure ScoringConfig where
  weights : ScoringWeights
deriving DecidableEq

/-- Classification thresholds from src/config.ts (`ThresholdsSchema`). -/
structure Thresholds where
  duplicate_similarity : ℚ
  aligned : ℚ
  drifting : ℚ
deriving DecidableEq

/-- The parts of `PrismConfig` (src/config.ts) read by the scorer and the
vision engine. -/
structure PrismConfig where
  repo : String
  thresholds : Thresholds
  scoring : ScoringConfig
deriving DecidableEq

/-- `ScorerContext` from src/scorer.ts: the author merge-count map, modelled as
a lookup function (JS `Map.get` returns `undefined` for absent keys). -/
structure ScorerContext where
  authorMergeCounts : String → Option ℕ

/-- `normalizeDescriptionQuality` from src/scorer.ts lines 9-17. -/
def normalizeDescriptionQuality (body : String) : ℚ :=
  if body = "" then 0
  else
    let len : ℚ := body.length
    if len < 50 then 1/10
    else if len < 200 then 3/10 + (len - 50) / 150 * (3/10)
    else if len < 1000 then 6/10 + (len - 200) / 800 * (3/10)
    else 9/10 + min (1/10) ((len - 1000) / 5000 * (1/10))

/-- `normalizeDiffSize` from src/scorer.ts lines 19-28. -/
def normalizeDiffSize (additions deletions : ℕ) : ℚ :=
  let total := additions + deletions
  if total ≤ 50 then 1
  else if total ≤ 200 then 8/10
  else if total ≤ 500 then 6/10
  else if total ≤ 1000 then 4/10
  else if total ≤ 5000 then 2/10
  else 1/10

/-- `normalizeAuthorHistory` from src/scorer.ts lines 30-36. -/
def normalizeAuthorHistory (mergeCount : ℕ) : ℚ :=
  if mergeCount = 0 then 1/10
  else if mergeCount ≤ 5 then 2/10 + (mergeCount : ℚ) * (4/100)
  else if mergeCount ≤ 20 then 4/10 + ((mergeCount : ℚ) - 5) * (2/100)
  else min 1 (7/10 + ((mergeCount : ℚ) - 20) * (5/1000))

/-- The weight redistribution of src/scorer.ts lines 90-101: when diff stats
are absent, `diff_size_penalty` is zeroed and every other weight is divided by
`1 - diff_size_penalty`. -/
def redistributeWeights (weights : ScoringWeights) : ScoringWeights :=
  let redistributed := weights.diff_size_penalty
  let otherTotal := 1 - redistributed
  { has_tests := weights.has_tests / otherTotal * 1,
    ci_passing := weights.ci_passing / otherTotal * 1,
    diff_size_penalty := 0,
    author_history := weights.author_history / otherTotal * 1,
    description_quality := weights.description_quality / otherTotal * 1,
    review_approvals := weights.review_approvals / otherTotal * 1 }

/-- `scorePR` from src/scorer.ts lines 68-112.  Note that the source hardcodes
the `hasTests` signal to `0.5` (line 79, "Would need diff analysis to
determine") and computes the `recency` signal (line 85) without ever adding it
to `score` (lines 103-109). -/
def scorePR (powHalf : ℚ → ℚ) (now : ℚ) (item : PRItem) (config : PrismConfig)
    (context : ScorerContext) : ScoredPR :=
  let weights := config.scoring.weights
  let authorMerges := (context.authorMergeCounts item.author).getD 0
  let hasDiffStats := item.additions.isSome && item.deletions.isSome
  let signals : ScoreSignals :=
    { hasTests := 1/2,
      ciPassing := match item.ciStatus with
        | some CIStatus.success => 1
        | some CIStatus.failure => 0
        | _ => 1/2,
      diffSize := if hasDiffStats then
          normalizeDiffSize (item.additions.getD 0) (item.deletions.getD 0)
        else -1,
      authorHistory := normalizeAuthorHistory authorMerges,
      descriptionQuality := normalizeDescriptionQuality item.body,
      reviewApprovals := min 1 ((item.reviewCount.getD 0 : ℚ) / 3),
      recency := powHalf ((now - item.updatedAt) / (1000 * 60 * 60 * 24 * 30)) }
  let effectiveWeights := if hasDiffStats then weights else redistributeWeights weights
  let score :=
    signals.hasTests * effectiveWeights.has_tests +
    signals.ciPassing * effectiveWeights.ci_passing +
    (if 0 ≤ signals.diffSize then signals.diffSize else 0) * effectiveWeights.diff_size_penalty +
    signals.authorHistory * effectiveWeights.author_history +
    signals.descriptionQuality * effectiveWeights.description_quality +
    signals.reviewApprovals * effectiveWeights.review_approvals
  { item := item, score := score, signals := signals }

/-- Association-list lookup with decidable key equality, modelling JS
`Map.get` on a map whose entries are kept in insertion order. -/
def alookup {α : Type} (k : String) : List (String × α) → Option α
  | [] => none
  | (k', v) :: rest => if k = k' then some v else alookup k rest

/-- JS `Map.set`: replace the value in place when the key exists, otherwise
append the new entry (insertion order is preserved). -/
def mapSet {α : Type} (m : List (String × α)) (k : String) (v : α) : List (String × α) :=
  if (alookup k m).isSome then m.map (fun p => if p.1 = k then (k, v) else p)
  else m ++ [(k, v)]

/-- `recencyFactor` from src/cluster.ts lines 7-11: `0.5 ** (ageDays / 30)`
with `ageDays = ageMs / (1000*60*60*24)`. -/
def recencyFactor (powHalf : ℚ → ℚ) (now updatedAt : ℚ) : ℚ :=
  let ageMs := now - updatedAt
  let ageDays := ageMs / (1000 * 60 * 60 * 24)
  powHalf (ageDays / 30)

/-- `ClusterOptions` from src/cluster.ts. -/
structure ClusterOptions where
  threshold : ℚ
  repo : String

/-- The view of the `VectorStore` consumed by `findDuplicateClusters`:
`allEmbeddings` models `store.getAllEmbeddings(opts.repo)` (entries in
insertion order, unique keys in a real store), and `search` models
`store.search(embedding, limit, threshold)` returning `(id, distance)` pairs. -/
structure VectorStoreView where
  allEmbeddings : List (String × Vec)
  search : Vec → ℕ → ℚ → List (String × ℚ)

/-- The zero-vector filter of src/cluster.ts lines 21-33: rebuild the
embedding map, skipping zero vectors. -/
def filterZeroEmbeddings (all : List (String × Vec)) : List (String × Vec) :=
  all.foldl (fun m p => if isZeroVector p.2 then m else mapSet m p.1 p.2) []

/-- Adjacency structure: JS `Map<string, Set<string>>` as an association list
of neighbor lists (sets in insertion order). -/
abbrev AdjMap := List (String × List String)

/-- JS `Set.add`: append unless already present. -/
def setAdd (s : List String) (x : String) : List String :=
  if x ∈ s then s else s ++ [x]

/-- `if (!adjacency.has(k)) adjacency.set(k, new Set())`. -/
def ensureKey (adj : AdjMap) (k : String) : AdjMap :=
  if (alookup k adj).isSome then adj else adj ++ [(k, [])]

/-- `adjacency.get(k)?.add(v)`. -/
def addNeighbor (adj : AdjMap) (k v : String) : AdjMap :=
  adj.map (fun p => if p.1 = k then (p.1, setAdd p.2 v) else p)

/-- The four statements of src/cluster.ts lines 60-63 / 75-78 that record an
undirected edge between `a` and `b`. -/
def addEdge (adj : AdjMap) (a b : String) : AdjMap :=
  addNeighbor (addNeighbor (ensureKey (ensureKey adj a) b) a b) b a

/-- Brute-force graph construction of src/cluster.ts lines 67-82: all pairs
`i < j`, edge iff exact cosine similarity meets the threshold. -/
def bruteForceAdj (sqrtFn : ℚ → ℚ) (embeddings : List (String × Vec)) (threshold : ℚ) : AdjMap :=
  let ids := embeddings.map Prod.fst
  (List.range ids.length).foldl (fun adj i =>
    let a := ids.getD i ""
    let embA := (alookup a embeddings).getD []
    (List.range' (i + 1) (ids.length - (i + 1))).foldl (fun adj j =>
      let b := ids.getD j ""
      let embB := (alookup b embeddings).getD []
      let sim := cosineSimilarity sqrtFn embA embB
      if jge sim threshold then addEdge adj a b else adj) adj) []

/-- ANN-prefiltered graph construction of src/cluster.ts lines 47-66: for each
id, take top-50 store candidates, drop self and filtered-out ids, verify with
exact cosine similarity. -/
def annAdj (sqrtFn : ℚ → ℚ) (store : VectorStoreView) (embeddings : List (String × Vec))
    (threshold : ℚ) : AdjMap :=
  let ids := embeddings.map Prod.fst
  ids.foldl (fun adj id =>
    let emb := (alookup id embeddings).getD []
    let candidates := store.search emb 50 threshold
    candidates.foldl (fun adj cand =>
      let candidateId := cand.1
      if candidateId = id then adj
      else if (alookup candidateId embeddings).isNone then adj
      else
        let sim := cosineSimilarity sqrtFn emb ((alookup candidateId embeddings).getD [])
        if jge sim threshold then addEdge adj id candidateId else adj) adj) []

/-- Total size of all adjacency lists; used to bound the number of iterations
of the breadth-first search loop. -/
def adjTotalSize (adj : AdjMap) : ℕ := (adj.map (fun p => p.2.length)).sum

/-- The `while (queue.length > 0)` breadth-first traversal of src/cluster.ts
lines 91-100, with an explicit fuel parameter (one unit per loop iteration) to
keep the definition structurally recursive.  Returns the updated visited set
and the collected component. -/
def bfsAux (adj : AdjMap) : ℕ → List String → List String → List String →
    List String × List String
  | 0, visited, _, component => (visited, component)
  | _ + 1, visited, [], component => (visited, component)
  | fuel + 1, visited, current :: rest, component =>
    if current ∈ visited then bfsAux adj fuel visited rest component
    else
      let neighbors := (alookup current adj).getD []
      let toPush := neighbors.filter (fun n => decide (n ∉ current :: visited))
      bfsAux adj fuel (current :: visited) (rest ++ toPush) (component ++ [current])

/-- Breadth-first component extraction starting from `id`.  The fuel
`1 + adjTotalSize adj` bounds the iteration count: every iteration pops one
queue element, the queue starts with one element, and pushes only come from
the neighbor list of a not-yet-visited key, each key contributing at most
once. -/
def bfsComponent (adj : AdjMap) (visited : List String) (id : String) :
    List String × List String :=
  bfsAux adj (1 + adjTotalSize adj) visited [id] []

/-- Composite key `repo:type:number` used by the clustering engine
(src/cluster.ts line 37). -/
def clusterKey (repo : String) (item : PRItem) : String :=
  repo ++ ":" ++ item.itemType.str ++ ":" ++ toString item.number

/-- The item map of src/cluster.ts lines 35-38. -/
def buildItemMap (repo : String) (items : List PRItem) : List (String × PRItem) :=
  items.foldl (fun m item => mapSet m (clusterKey repo item) item) []

/-- The per-member derived score of src/cluster.ts lines 104-119: recency
factor times body length normalized to a 500-character cap; members whose id
is not in the item map are dropped (`filter` after `map`). -/
def toScoredMember (powHalf : ℚ → ℚ) (now : ℚ) (itemMap : List (String × PRItem))
    (cid : String) : Option ScoredPR :=
  match alookup cid itemMap with
  | none => none
  | some item =>
    let recency := recencyFactor powHalf now item.updatedAt
    let descriptionQuality := min 1 ((item.body.length : ℚ) / 500)
    some { item := item,
           score := recency * descriptionQuality,
           signals := { hasTests := 0, ciPassing := 0, diffSize := 0, authorHistory := 0,
                        descriptionQuality := descriptionQuality, reviewApprovals := 0,
                        recency := recency } }

/-- Stable insertion of `x` into a descending-by-`f` list: `x` goes after
every element whose key is greater than or equal to its own. -/
def insertDescBy {α : Type} (f : α → ℚ) (x : α) : List α → List α
  | [] => [x]
  | y :: ys => if f y < f x then x :: y :: ys else y :: insertDescBy f x ys

/-- Stable descending sort by key `f`, processing elements left to right;
this is the unique stable descending ordering, hence the result of the JS
`sort((a, b) => f(b) - f(a))` call. -/
def sortDescBy {α : Type} (f : α → ℚ) (l : List α) : List α :=
  l.foldl (fun acc x => insertDescBy f x acc) []

/-- The first element of `l` attaining the maximum of `f` over `l` (the fold
replaces the running best only on a strict improvement). -/
def firstMaxBy {α : Type} (f : α → ℚ) (l : List α) : Option α :=
  l.foldl (fun acc x =>
    match acc with
    | none => some x
    | some b => if f b < f x then some x else some b) none

/-- Average pairwise exact cosine similarity over a component
(src/cluster.ts lines 125-134 and 140). -/
def componentAvgSim (sqrtFn : ℚ → ℚ) (embeddings : List (String × Vec))
    (component : List String) : JSNum :=
  let st := (List.range component.length).foldl (fun (acc : JSNum × ℕ) i =>
    (List.range' (i + 1) (component.length - (i + 1))).foldl (fun (acc : JSNum × ℕ) j =>
      let embA := (alookup (component.getD i "") embeddings).getD []
      let embB := (alookup (component.getD j "") embeddings).getD []
      (jadd acc.1 (cosineSimilarity sqrtFn embA embB), acc.2 + 1)) acc) (some 0, 0)
  if 0 < st.2 then jdiv st.1 (some (st.2 : ℚ)) else some 0

/-- `Cluster` from src/types.ts. -/
structure Cluster where
  id : ℕ
  items : List ScoredPR
  bestPick : ScoredPR
  avgSimilarity : JSNum
  theme : String
deriving DecidableEq

/-- Placeholder `ScoredPR` for the (never reached) `headD` default of a list
known to have at least two elements. -/
def emptyScoredPR : ScoredPR :=
  { item := { number := 0, itemType := ItemType.pr, title := "", body := "", author := "",
              updatedAt := 0, ciStatus := none, reviewCount := none, additions := none,
              deletions := none, hasTests := none },
    score := 0,
    signals := { hasTests := 0, ciPassing := 0, diffSize := 0, authorHistory := 0,
                 descriptionQuality := 0, reviewApprovals := 0, recency := 0 } }

/-- Placeholder `Cluster` used only as a `headD` default in witnesses. -/
def emptyCluster : Cluster :=
  { id := 0, items := [], bestPick := emptyScoredPR, avgSimilarity := some 0, theme := "" }

/-- One iteration of the `for (const id of ids)` component loop of
src/cluster.ts lines 87-143, threading the shared visited set and the cluster
accumulator. -/
def clusterStep (sqrtFn powHalf : ℚ → ℚ) (now : ℚ) (embeddings : List (String × Vec))
    (itemMap : List (String × PRItem)) (adjacency : AdjMap)
    (st : List String × List Cluster) (id : String) : List String × List Cluster :=
  if id ∈ st.1 ∨ (alookup id adjacency) = none then st
  else
    let r := bfsComponent adjacency st.1 id
    let visited := r.1
    let component := r.2
    if component.length < 2 then (visited, st.2)
    else
      let clusterItems :=
        sortDescBy ScoredPR.score (component.filterMap (toScoredMember powHalf now itemMap))
      if clusterItems.length < 2 then (visited, st.2)
      else
        (visited,
         st.2 ++ [{ id := 0,
                    items := clusterItems,
                    bestPick := clusterItems.headD emptyScoredPR,
                    avgSimilarity := componentAvgSim sqrtFn embeddings component,
                    theme := (clusterItems.headD emptyScoredPR).item.title }])

/-- `findDuplicateClusters` from src/cluster.ts lines 18-152: filter zero
vectors, build the similarity graph (brute force below 5000 ids, ANN
prefiltering at or above), extract breadth-first connected components, keep
those with at least two mapped members, then sort by member count descending
and assign sequential 1-based ids. -/
def findDuplicateClusters (sqrtFn powHalf : ℚ → ℚ) (now : ℚ) (store : VectorStoreView)
    (items : List PRItem) (opts : ClusterOptions) : List Cluster :=
  let allEmbeddings := store.allEmbeddings
  let embeddings := filterZeroEmbeddings allEmbeddings
  let itemMap := buildItemMap opts.repo items
  let ids := embeddings.map Prod.fst
  let useANN := decide (5000 ≤ ids.length)
  let adjacency :=
    if useANN then annAdj sqrtFn store embeddings opts.threshold
    else bruteForceAdj sqrtFn embeddings opts.threshold
  let st := ids.foldl (clusterStep sqrtFn powHalf now embeddings itemMap adjacency) ([], [])
  let sorted := sortDescBy (fun c => ((Cluster.items c).length : ℚ)) st.2
  sorted.enum.map (fun p => { p.2 with id := p.1 + 1 })

/-- `VisionChunk` from src/vision.ts lines 7-11. -/
structure VisionChunk where
  heading : String
  text : String
  embedding : Vec
deriving DecidableEq

/-- The three alignment tiers of src/types.ts (`VisionScore.classification`). -/
inductive Classification where
  | aligned
  | drifting
  | offVision
deriving DecidableEq

/-- `VisionScore` from src/types.ts. -/
structure VisionScore where
  prNumber : ℕ
  score : JSNum
  classification : Classification
  matchedSection : String
deriving DecidableEq

/-- `scoreVisionAlignment` from src/vision.ts lines 72-104: running maximum
(strict improvement only) starting from `maxSim = 0` and
`matchedSection = ""`, then two-threshold bucketing. -/
def scoreVisionAlignment (sqrtFn : ℚ → ℚ) (prEmbedding : Vec)
    (visionChunks : List VisionChunk) (config : PrismConfig) : VisionScore :=
  let acc := visionChunks.foldl (fun (acc : JSNum × String) chunk =>
    let sim := cosineSimilarity sqrtFn prEmbedding chunk.embedding
    if jlt acc.1 sim then (sim, chunk.heading) else acc) (some 0, "")
  let maxSim := acc.1
  let matchedSection := acc.2
  let thresholds := config.thresholds
  let classification :=
    if jge maxSim thresholds.aligned then Classification.aligned
    else if jge maxSim thresholds.drifting then Classification.drifting
    else Classification.offVision
  { prNumber := 0, score := maxSim, classification := classification,
    matchedSection := matchedSection }

/-- A row of the sqlite `items` table (store.ts, CREATE TABLE items). -/
structure ItemRow where
  id : String
  itemType : String
  number : ℕ
  repo : String
  title : String
  bodySnippet : String
  metadataJson : String
  createdAt : String
  updatedAt : String
deriving DecidableEq

/-- `StoreItem` from src/types.ts as consumed by `VectorStore.upsert`;
`metadataJson` stands for `JSON.stringify(item.metadata)`. -/
structure StoreItem where
  id : String
  itemType : String
  number : ℕ
  repo : String
  title : String
  bodySnippet : String
  embedding : Vec
  metadataJson : String
  createdAt : String
  updatedAt : String
deriving DecidableEq

/-- The persisted sqlite database file behind a `VectorStore`: whether the
`vec0` virtual table `vec_items` exists, its declared vector width, its rows,
the `items` rows, and the `prism_meta` key-value table. -/
structure DBFile where
  hasVecTable : Bool
  vecDim : ℕ
  vecRows : List (String × Vec)
  itemRows : List ItemRow
  meta : List (String × String)
deriving DecidableEq

/-- Model error message for the dimension-mismatch throw of store.ts `init`. -/
def dimensionMismatchMsg : String := "dimension mismatch"

/-- Model error message for the embedding-model-changed throw of store.ts `init`. -/
def modelChangedMsg : String := "embedding model changed"

/-- `VectorStore.init` from store.ts (the variant with `prism_meta`): ensure
the meta table, check the first stored embedding's width against the
configured `dimensions` and throw on mismatch, check the recorded embedding
model when one is configured, then create the tables if missing.  An
`Except.error` is a thrown constructor error: no store object exists, so no
write can be issued against it. -/
def VectorStore.init (dimensions : ℕ) (embeddingModel : Option String) (db : DBFile) :
    Except String DBFile :=
  let dimCheck : Option String :=
    if db.hasVecTable then
      match db.vecRows.head? with
      | some row => if row.2.length ≠ dimensions then some dimensionMismatchMsg else none
      | none => none
    else none
  match dimCheck with
  | some msg => Except.error msg
  | none =>
    let modelCheck : Option String :=
      match embeddingModel with
      | some m =>
        match alookup "embedding_model" db.meta with
        | some stored => if stored ≠ m then some modelChangedMsg else none
        | none => none
      | none => none
    match modelCheck with
    | some msg => Except.error msg
    | none =>
      if db.hasVecTable then Except.ok db
      else Except.ok { db with hasVecTable := true, vecDim := dimensions, vecRows := [] }

/-- The `INSERT ... ON CONFLICT(id) DO UPDATE SET title, body_snippet,
metadata_json, updated_at` statement of `VectorStore.upsert` (`created_at` and
the key columns are not touched on conflict). -/
def upsertItemRow (rows : List ItemRow) (r : ItemRow) : List ItemRow :=
  if rows.any (fun row => decide (row.id = r.id)) then
    rows.map (fun row =>
      if row.id = r.id then
        { row with title := r.title, bodySnippet := r.bodySnippet,
                   metadataJson := r.metadataJson, updatedAt := r.updatedAt }
      else row)
  else rows ++ [r]

/-- `VectorStore.upsert` from store.ts: three separately prepared and run
statements with no enclosing transaction, each autocommitted — (1) upsert the
`items` row, (2) `DELETE FROM vec_items WHERE id = ?`, (3) `INSERT INTO
vec_items`.  The `vec0` virtual table rejects a vector whose width differs
from the declared `float[dim]` column, so statement (3) throws in that case;
the result is `Except.error` carrying the database state already committed by
statements (1) and (2). -/
def VectorStore.upsert (db : DBFile) (item : StoreItem) : Except DBFile DBFile :=
  let id := item.repo ++ ":" ++ item.itemType ++ ":" ++ toString item.number
  let row : ItemRow :=
    { id := id, itemType := item.itemType, number := item.number, repo := item.repo,
      title := item.title, bodySnippet := item.bodySnippet,
      metadataJson := item.metadataJson, createdAt := item.createdAt,
      updatedAt := item.updatedAt }
  let db1 := { db with itemRows := upsertItemRow db.itemRows row }
  let db2 := { db1 with vecRows := db1.vecRows.filter (fun p => decide (p.1 ≠ id)) }
  if item.embedding.length = db.vecDim then
    Except.ok { db2 with vecRows := db2.vecRows ++ [(id, item.embedding)] }
  else Except.error db2

/-- Default scoring weights of src/config.ts (`ScoringWeightsSchema` defaults). -/
def defaultWeights : ScoringWeights :=
  { has_tests := 1/4, ci_passing := 1/5, diff_size_penalty := 3/20, author_history := 3/20,
    description_quality := 3/20, review_approvals := 1/10 }

/-- Default configuration (src/config.ts defaults), used by concrete instances. -/
def defaultConfig : PrismConfig :=
  { repo := "test/repo",
    thresholds := { duplicate_similarity := 85/100, aligned := 65/100, drifting := 4/10 },
    scoring := { weights := defaultWeights } }

/-- Concrete scorer context: one known author with 10 merges. -/
def testContext : ScorerContext :=
  { authorMergeCounts := fun a => if a = "alice" then some 10 else none }

/-- Concrete item with `hasTests` known-true. -/
def hasTestsTrueItem : PRItem :=
  { number := 1, itemType := ItemType.pr, title := "Test PR",
    body := "A good description that is long enough to score well", author := "alice",
    updatedAt := 0, ciStatus := some CIStatus.success, reviewCount := some 1,
    additions := some 50, deletions := some 10, hasTests := some true }

/-- Same item with `hasTests` known-false. -/
def hasTestsFalseItem : PRItem := { hasTestsTrueItem with hasTests := some false }

/-- Concrete item updated at epoch time 0 ("now" in the instances below). -/
def recentItem : PRItem := hasTestsTrueItem

/-- The same item last updated 30 days (2592000000 ms) earlier. -/
def staleItem : PRItem := { hasTestsTrueItem with updatedAt := -2592000000 }

/-- Concrete item with no diff stats. -/
def noDiffItem : PRItem := { hasTestsTrueItem with additions := none, deletions := none }

/-- A concrete stand-in for `Math.pow(0.5, ·)`: positive and strictly
decreasing on the non-negative arguments reached by the instances below. -/
def powHalfApprox (q : ℚ) : ℚ := 1 / (1 + q)

/-- Concrete clustering input, item 1. -/
def witItem1 : PRItem :=
  { number := 1, itemType := ItemType.pr, title := "Add cache", body := "first body",
    author := "alice", updatedAt := 0, ciStatus := some CIStatus.success,
    reviewCount := some 1, additions := some 3, deletions := some 1, hasTests := some true }

/-- Concrete clustering input, item 2 (same embedding as item 1, longer body). -/
def witItem2 : PRItem := { witItem1 with number := 2, title := "Add caching", body := "second body here" }

/-- Concrete clustering input, item 3 (zero-vector embedding). -/
def witItem3 : PRItem := { witItem1 with number := 3, title := "Zero", body := "zzz" }

/-- Concrete store view: items 1 and 2 share the embedding `[1, 0]`, item 3
has the zero vector. -/
def witView : VectorStoreView :=
  { allEmbeddings := [("r:pr:1", [1, 0]), ("r:pr:2", [1, 0]), ("r:pr:3", [0, 0])],
    search := fun _ _ _ => [] }

/-- Concrete clustering options: default threshold 0.85, repo "r". -/
def witOpts : ClusterOptions := { threshold := 85/100, repo := "r" }

/-- Concrete clustering run used by the cluster witnesses. -/
def witOut : List Cluster :=
  findDuplicateClusters (fun q => q) (fun _ => 1) 0 witView
    [witItem1, witItem2, witItem3] witOpts

/-- Concrete vision chunk whose embedding is opposite to the item embedding. -/
def oppositeChunk : VisionChunk := { heading := "Goal 1", text := "t", embedding := [-1, 0] }

/-- Concrete vision chunk whose embedding equals the item embedding. -/
def matchingChunk : VisionChunk := { heading := "Goal 1", text := "t", embedding := [1, 0] }

/-- Concrete database file holding one 3-dimensional vector. -/
def storeDB3 : DBFile :=
  { hasVecTable := true, vecDim := 3, vecRows := [("r:pr:1", [1/10, 2/10, 3/10])],
    itemRows := [{ id := "r:pr:1", itemType := "pr", number := 1, repo := "r",
                   title := "old title", bodySnippet := "old body", metadataJson := "\x7b\x7d",
                   createdAt := "2025-01-01", updatedAt := "2025-01-01" }],
    meta := [] }

/-- Concrete `StoreItem` carrying a 2-dimensional embedding, which the
3-dimensional `vec_items` table of `storeDB3` rejects. -/
def badWidthItem : StoreItem :=
  { id := "r:pr:1", itemType := "pr", number := 1, repo := "r", title := "new title",
    bodySnippet := "new body", embedding := [1, 0], metadataJson := "\x7b\x7d",
    createdAt := "2025-01-01", updatedAt := "2025-02-02" }

/-- The persisted state left behind by the failing `upsert` of `badWidthItem`
into `storeDB3`: the new metadata row is committed and the old embedding row
deleted, but no embedding row exists. -/
def upsertFailState : DBFile :=
  { hasVecTable := true, vecDim := 3, vecRows := [],
    itemRows := [{ id := "r:pr:1", itemType := "pr", number := 1, repo := "r",
                   title := "new title", bodySnippet := "new body", metadataJson := "\x7b\x7d",
                   createdAt := "2025-01-01", updatedAt := "2025-02-02" }],
    meta := [] }

/-! ### General helper lemmas -/

theorem jadd_none_left (x : JSNum) : jadd none x = none := by cases x <;> rfl

theorem jadd_none_right (x : JSNum) : jadd x none = none := by cases x <;> rfl

theorem jmul_none_right (x : JSNum) : jmul x none = none := by cases x <;> rfl

theorem jdiv_none_right (x : JSNum) : jdiv x none = none := by cases x <;> rfl

theorem foldl_invariant {α β : Type} (f : β → α → β) (P : β → Prop) (l : List α) (init : β)
    (h0 : P init) (hstep : ∀ b a, a ∈ l → P b → P (f b a)) : P (l.foldl f init) := by
  induction l generalizing init with
  | nil => exact h0
  | cons x xs ih =>
    exact ih (f init x) (hstep init x (List.mem_cons_self x xs) h0)
      (fun b a ha hb => hstep b a (List.mem_cons_of_mem x ha) hb)

theorem foldl_congr_step {α β : Type} (f g : β → α → β) (l : List α) (init : β)
    (h : ∀ b a, a ∈ l → f b a = g b a) : l.foldl f init = l.foldl g init := by
  induction l generalizing init with
  | nil => rfl
  | cons x xs ih =>
    rw [List.foldl_cons, List.foldl_cons, h init x (List.mem_cons_self x xs)]
    exact ih _ (fun b a ha => h b a (List.mem_cons_of_mem x ha))

theorem alookup_mem {α : Type} {k : String} {v : α} {m : List (String × α)}
    (h : alookup k m = some v) : (k, v) ∈ m := by
  induction m with
  | nil => simp [alookup] at h
  | cons p rest ih =>
    obtain ⟨a, b⟩ := p
    rw [alookup] at h
    by_cases hk : k = a
    · rw [if_pos hk] at h
      injection h with h2
      subst hk
      subst h2
      exact List.mem_cons_self _ _
    · rw [if_neg hk] at h
      exact List.mem_cons_of_mem _ (ih h)

theorem alookup_eq_none {α : Type} {k : String} {m : List (String × α)}
    (h : k ∉ m.map Prod.fst) : alookup k m = none := by
  induction m with
  | nil => rfl
  | cons p rest ih =>
    rw [alookup]
    have hk : k ≠ p.1 := fun he => h (by simp [he])
    rw [if_neg hk]
    exact ih (fun hm => h (by simp [hm]))

theorem mem_keys_of_alookup_isSome {α : Type} {k : String} {m : List (String × α)}
    (h : (alookup k m).isSome) : k ∈ m.map Prod.fst := by
  by_contra hk
  rw [alookup_eq_none hk] at h
  simp at h

/-! ### C10: cosineSimilarity length contract -/

theorem cosStep_normB_none {a b : Vec} {acc : CosAcc} (h : acc.normB = none) (i : ℕ) :
    (cosStep a b acc i).normB = none := by
  simp [cosStep, h, jadd_none_left]

theorem cosStep_normB_none_of_get {a b : Vec} (acc : CosAcc) {i : ℕ} (h : b.get? i = none) :
    (cosStep a b acc i).normB = none := by
  simp only [cosStep, jsGet, h, jmul_none_right, jadd_none_right]

theorem foldl_cosStep_normB_none {a b : Vec} (l : List ℕ) (acc : CosAcc)
    (h : acc.normB = none ∨ ∃ i ∈ l, b.get? i = none) :
    (l.foldl (cosStep a b) acc).normB = none := by
  induction l generalizing acc with
  | nil =>
    rcases h with h | ⟨i, hi, _⟩
    · exact h
    · cases hi
  | cons j l' ih =>
    rcases h with h | ⟨i, hi, hget⟩
    · exact ih _ (Or.inl (cosStep_normB_none h j))
    · rcases List.mem_cons.mp hi with rfl | hi'
      · exact ih _ (Or.inl (cosStep_normB_none_of_get acc hget))
      · exact ih _ (Or.inr ⟨i, hi', hget⟩)

theorem cosLoop_normB_none {a b : Vec} (h : b.length < a.length) : (cosLoop a b).normB = none :=
  foldl_cosStep_normB_none _ _
    (Or.inr ⟨b.length, List.mem_range.mpr h, List.get?_eq_none.mpr le_rfl⟩)

theorem cosLoop_take (a b : Vec) :
    cosLoop a b = cosLoop a (b.take a.length) := by
  unfold cosLoop
  apply foldl_congr_step
  intro acc i hi
  have hlt : i < a.length := List.mem_range.mp hi
  simp only [cosStep, jsGet, List.get?_take hlt]

/-- C10: `cosineSimilarity` iterates only over the indices of its first
argument.  When the first vector is strictly longer than the second, the loop
reads past the end of the second vector and the result is `NaN`; when the
first is strictly shorter (or equal), the result coincides with the similarity
against the second vector truncated to the first one's length, so trailing
components of the second vector are silently ignored. -/
theorem cosineSimilarity_length_mismatch (sqrtFn : ℚ → ℚ) (a b : Vec) :
    (b.length < a.length → cosineSimilarity sqrtFn a b = none) ∧
    (a.length ≤ b.length →
      cosineSimilarity sqrtFn a b = cosineSimilarity sqrtFn a (b.take a.length)) := by
  constructor
  · intro h
    have hB := cosLoop_normB_none h
    simp only [cosineSimilarity, hB, jsqrt, jmul_none_right, jdiv_none_right]
    simp
  · intro _h
    have hL := cosLoop_take a b
    simp only [cosineSimilarity, hL]

/-- Witness for C10: `[1,0,0]` against `[1,0]` is `NaN`; `[1,0]` against
`[1,0,5]` equals `[1,0]` against `[1,0]`. -/
theorem cosineSimilarity_length_mismatch_witness :
    cosineSimilarity (fun q => q) [1, 0, 0] [1, 0] = none ∧
    cosineSimilarity (fun q => q) [1, 0] [1, 0, 5] =
      cosineSimilarity (fun q => q) [1, 0] (([1, 0, 5] : Vec).take 2) :=
  ⟨(cosineSimilarity_length_mismatch (fun q => q) [1, 0, 0] [1, 0]).1 (by decide),
   (cosineSimilarity_length_mismatch (fun q => q) [1, 0] [1, 0, 5]).2 (by decide)⟩

/-! ### C1, C2, C3: scoring engine -/

/-- C1: for an item without diff stats (`additions` or `deletions` absent),
`scorePR` sets the `diffSize` signal to the sentinel `-1`, excludes it from
the weighted sum (the redistributed `diff_size_penalty` weight is `0`, so the
diff term contributes nothing), and divides each remaining primary weight by
`1 - diff_size_penalty`; consequently the applied primary weights still sum to
`1` whenever the six configured weights sum to `1` (the degenerate
configuration `diff_size_penalty = 1`, which would divide by zero, is
excluded). -/
theorem scorePR_redistributes_weights (powHalf : ℚ → ℚ) (now : ℚ) (item : PRItem)
    (config : PrismConfig) (context : ScorerContext)
    (hmiss : item.additions = none ∨ item.deletions = none)
    (hsum : config.scoring.weights.has_tests + config.scoring.weights.ci_passing +
      config.scoring.weights.diff_size_penalty + config.scoring.weights.author_history +
      config.scoring.weights.description_quality +
      config.scoring.weights.review_approvals = 1)
    (hne : config.scoring.weights.diff_size_penalty ≠ 1) :
    (scorePR powHalf now item config context).signals.diffSize = -1 ∧
    (redistributeWeights config.scoring.weights).diff_size_penalty = 0 ∧
    (redistributeWeights config.scoring.weights).has_tests +
      (redistributeWeights config.scoring.weights).ci_passing +
      (redistributeWeights config.scoring.weights).author_history +
      (redistributeWeights config.scoring.weights).description_quality +
      (redistributeWeights config.scoring.weights).review_approvals = 1 ∧
    (scorePR powHalf now item config context).score =
      (scorePR powHalf now item config context).signals.hasTests *
        (redistributeWeights config.scoring.weights).has_tests +
      (scorePR powHalf now item config context).signals.ciPassing *
        (redistributeWeights config.scoring.weights).ci_passing +
      (scorePR powHalf now item config context).signals.authorHistory *
        (redistributeWeights config.scoring.weights).author_history +
      (scorePR powHalf now item config context).signals.descriptionQuality *
        (redistributeWeights config.scoring.weights).description_quality +
      (scorePR powHalf now item config context).signals.reviewApprovals *
        (redistributeWeights config.scoring.weights).review_approvals := by
  have hbool : (item.additions.isSome && item.deletions.isSome) = false := by
    rcases hmiss with h | h <;> simp [h]
  have hdenom : (1 : ℚ) - config.scoring.weights.diff_size_penalty ≠ 0 :=
    sub_ne_zero.mpr (Ne.symm hne)
  refine ⟨?_, ?_, ?_, ?_⟩
  · simp [scorePR, hbool]
  · simp [redistributeWeights]
  · simp only [redistributeWeights, mul_one]
    rw [div_add_div_same, div_add_div_same, div_add_div_same, div_add_div_same]
    rw [div_eq_one_iff_eq hdenom]
    linarith
  · norm_num [scorePR, hbool, redistributeWeights]

/-- Witness for C1: the default weights (which sum to 1) and a concrete item
without diff stats. -/
theorem scorePR_redistributes_weights_witness :
    (scorePR powHalfApprox 0 noDiffItem defaultConfig testContext).signals.diffSize = -1 ∧
    (redistributeWeights defaultConfig.scoring.weights).diff_size_penalty = 0 ∧
    (redistributeWeights defaultConfig.scoring.weights).has_tests +
      (redistributeWeights defaultConfig.scoring.weights).ci_passing +
      (redistributeWeights defaultConfig.scoring.weights).author_history +
      (redistributeWeights defaultConfig.scoring.weights).description_quality +
      (redistributeWeights defaultConfig.scoring.weights).review_approvals = 1 ∧
    (scorePR powHalfApprox 0 noDiffItem defaultConfig testContext).score =
      (scorePR powHalfApprox 0 noDiffItem defaultConfig testContext).signals.hasTests *
        (redistributeWeights defaultConfig.scoring.weights).has_tests +
      (scorePR powHalfApprox 0 noDiffItem defaultConfig testContext).signals.ciPassing *
        (redistributeWeights defaultConfig.scoring.weights).ci_passing +
      (scorePR powHalfApprox 0 noDiffItem defaultConfig testContext).signals.authorHistory *
        (redistributeWeights defaultConfig.scoring.weights).author_history +
      (scorePR powHalfApprox 0 noDiffItem defaultConfig testContext).signals.descriptionQuality *
        (redistributeWeights defaultConfig.scoring.weights).description_quality +
      (scorePR powHalfApprox 0 noDiffItem defaultConfig testContext).signals.reviewApprovals *
        (redistributeWeights defaultConfig.scoring.weights).review_approvals :=
  scorePR_redistributes_weights powHalfApprox 0 noDiffItem defaultConfig testContext
    (Or.inl rfl)
    (by norm_num [defaultConfig, defaultWeights])
    (by norm_num [defaultConfig, defaultWeights])

unseal Rat.add Rat.mul Rat.sub Rat.inv Rat.ofScientific in
/-- C2 fails on the code: `scorePR` hardcodes the `hasTests` signal to `0.5`
for every item (src/scorer.ts line 79, "Would need diff analysis to
determine"), ignoring the item's tri-state `hasTests` field, so two items
identical except for `hasTests` known-true vs known-false receive the same
signal `0.5` and exactly equal scores.  The repository's own test "scores
hasTests true higher than false" (src/__tests__/scorer.test.ts) asserts the
claimed behavior, so this is a code bug, witnessed here by evaluating the code
at the failing input. -/
theorem scorePR_hasTests_signal_hardcoded :
    (scorePR powHalfApprox 0 hasTestsTrueItem defaultConfig testContext).signals.hasTests =
      1/2 ∧
    (scorePR powHalfApprox 0 hasTestsFalseItem defaultConfig testContext).signals.hasTests =
      1/2 ∧
    (scorePR powHalfApprox 0 hasTestsTrueItem defaultConfig testContext).score =
      (scorePR powHalfApprox 0 hasTestsFalseItem defaultConfig testContext).score := by
  decide

unseal Rat.add Rat.mul Rat.sub Rat.inv Rat.ofScientific in
/-- C3 fails on the code: `scorePR` computes the recency signal (src/scorer.ts
line 85) but the score (lines 103-109) is the weighted sum of the six primary
signals only — no recency bonus term is ever added.  Two items identical
except for `updatedAt` (here: 30 days apart) have different recency signals
but exactly equal scores, contradicting the claimed strict monotonicity in
`updatedAt`; the repository's own test "includes recency in score"
(src/__tests__/scorer.test.ts) asserts the claimed behavior, so this is a code
bug, witnessed here by evaluating the code at the failing input. -/
theorem scorePR_no_recency_bonus :
    (scorePR powHalfApprox 0 recentItem defaultConfig testContext).signals.recency ≠
      (scorePR powHalfApprox 0 staleItem defaultConfig testContext).signals.recency ∧
    (scorePR powHalfApprox 0 recentItem defaultConfig testContext).score =
      (scorePR powHalfApprox 0 staleItem defaultConfig testContext).score := by
  decide

/-! ### Stable descending sort lemmas -/

theorem insertDescBy_perm {α : Type} (f : α → ℚ) (x : α) (l : List α) :
    (insertDescBy f x l).Perm (x :: l) := by
  induction l with
  | nil => exact List.Perm.refl _
  | cons y ys ih =>
    rw [insertDescBy]
    by_cases h : f y < f x
    · rw [if_pos h]
    · rw [if_neg h]
      exact (List.Perm.cons y ih).trans (List.Perm.swap x y ys)

theorem sortDescBy_perm {α : Type} (f : α → ℚ) (l : List α) : (sortDescBy f l).Perm l := by
  have aux : ∀ (l acc : List α),
      (l.foldl (fun acc x => insertDescBy f x acc) acc).Perm (l ++ acc) := by
    intro l
    induction l with
    | nil => intro acc; simp
    | cons x xs ih =>
      intro acc
      rw [List.foldl_cons]
      refine (ih (insertDescBy f x acc)).trans ?_
      refine (List.Perm.append_left xs (insertDescBy_perm f x acc)).trans ?_
      exact List.perm_middle
  have := aux l []
  simpa [sortDescBy] using this

theorem insertDescBy_pairwise {α : Type} (f : α → ℚ) (x : α) {l : List α}
    (hl : l.Pairwise (fun a b => f b ≤ f a)) :
    (insertDescBy f x l).Pairwise (fun a b => f b ≤ f a) := by
  induction l with
  | nil => simp [insertDescBy]
  | cons y ys ih =>
    rw [List.pairwise_cons] at hl
    obtain ⟨hy, hys⟩ := hl
    rw [insertDescBy]
    by_cases h : f y < f x
    · rw [if_pos h]
      refine List.Pairwise.cons ?_ (List.Pairwise.cons hy hys)
      intro z hz
      rcases List.mem_cons.mp hz with rfl | hz'
      · exact le_of_lt h
      · exact le_trans (hy z hz') (le_of_lt h)
    · rw [if_neg h]
      refine List.Pairwise.cons ?_ (ih hys)
      intro z hz
      have hz2 : z ∈ x :: ys := (insertDescBy_perm f x ys).mem_iff.mp hz
      rcases List.mem_cons.mp hz2 with rfl | hz'
      · exact not_lt.mp h
      · exact hy z hz'

theorem sortDescBy_pairwise {α : Type} (f : α → ℚ) (l : List α) :
    (sortDescBy f l).Pairwise (fun a b => f b ≤ f a) := by
  unfold sortDescBy
  exact foldl_invariant _ (fun acc => acc.Pairwise (fun a b => f b ≤ f a)) l []
    List.Pairwise.nil (fun acc a _ hacc => insertDescBy_pairwise f a hacc)

theorem sortDescBy_append_single {α : Type} (f : α → ℚ) (l : List α) (x : α) :
    sortDescBy f (l ++ [x]) = insertDescBy f x (sortDescBy f l) := by
  simp [sortDescBy, List.foldl_append]

theorem firstMaxBy_append_single {α : Type} (f : α → ℚ) (l : List α) (x : α) :
    firstMaxBy f (l ++ [x]) =
      match firstMaxBy f l with
      | none => some x
      | some b => if f b < f x then some x else some b := by
  simp [firstMaxBy, List.foldl_append]

theorem sortDescBy_head_eq_firstMaxBy {α : Type} (f : α → ℚ) (l : List α) :
    (sortDescBy f l).head? = firstMaxBy f l := by
  induction l using List.reverseRecOn with
  | nil => rfl
  | append_singleton l x ih =>
    rw [sortDescBy_append_single, firstMaxBy_append_single, ← ih]
    cases hs : sortDescBy f l with
    | nil => simp [insertDescBy]
    | cons h t =>
      rw [insertDescBy]
      by_cases hcmp : f h < f x
      · rw [if_pos hcmp]
        simp [hcmp]
      · rw [if_neg hcmp]
        simp [hcmp]

theorem pairwise_head_max {α : Type} (f : α → ℚ) {b : α} {t : List α}
    (h : (b :: t).Pairwise (fun a b => f b ≤ f a)) :
    ∀ z ∈ b :: t, f z ≤ f b := by
  intro z hz
  rcases List.mem_cons.mp hz with rfl | hz'
  · exact le_refl _
  · exact List.rel_of_pairwise_cons h hz'

/-! ### Breadth-first search and map-building lemmas -/

theorem bfsAux_spec (adj : AdjMap) (fuel : ℕ) :
    ∀ (visited queue component : List String),
      (∀ x ∈ visited, x ∈ (bfsAux adj fuel visited queue component).1) ∧
      (∃ nw, (bfsAux adj fuel visited queue component).2 = component ++ nw ∧
        ∀ x ∈ nw, x ∉ visited ∧ x ∈ (bfsAux adj fuel visited queue component).1 ∧
          (x ∈ queue ∨ ∃ p ∈ adj, x ∈ p.2)) := by
  induction fuel with
  | zero =>
    intro visited queue component
    exact ⟨fun x hx => hx, [], by simp [bfsAux]⟩
  | succ fuel ih =>
    intro visited queue component
    match queue with
    | [] => exact ⟨fun x hx => hx, [], by simp [bfsAux]⟩
    | current :: rest =>
      rw [bfsAux]
      by_cases hv : current ∈ visited
      · rw [if_pos hv]
        obtain ⟨hmono, nw, hcomp, hnw⟩ := ih visited rest component
        refine ⟨hmono, nw, hcomp, fun x hx => ?_⟩
        obtain ⟨h1, h2, h3⟩ := hnw x hx
        exact ⟨h1, h2, h3.imp (List.mem_cons_of_mem current) id⟩
      · rw [if_neg hv]
        obtain ⟨hmono, nw', hcomp, hnw⟩ :=
          ih (current :: visited)
            (rest ++ (((alookup current adj).getD []).filter
              (fun n => decide (n ∉ current :: visited))))
            (component ++ [current])
        refine ⟨fun x hx => hmono x (List.mem_cons_of_mem current hx),
          current :: nw', by simpa using hcomp, fun x hx => ?_⟩
        rcases List.mem_cons.mp hx with rfl | hx'
        · exact ⟨hv, hmono x (List.mem_cons_self _ _), Or.inl (List.mem_cons_self _ _)⟩
        · obtain ⟨h1, h2, h3⟩ := hnw x hx'
          refine ⟨fun hxv => h1 (List.mem_cons_of_mem current hxv), h2, ?_⟩
          rcases h3 with h3 | h3
          · rcases List.mem_append.mp h3 with h3' | h3'
            · exact Or.inl (List.mem_cons_of_mem current h3')
            · have hxn : x ∈ (alookup current adj).getD [] := List.mem_of_mem_filter h3'
              cases halk : alookup current adj with
              | none => rw [halk] at hxn; cases hxn
              | some ns =>
                rw [halk] at hxn
                exact Or.inr ⟨(current, ns), alookup_mem halk, hxn⟩
          · exact Or.inr h3

theorem mapSet_mem {α : Type} {m : List (String × α)} {k : String} {v : α} :
    ∀ p ∈ mapSet m k v, p ∈ m ∨ p = (k, v) := by
  intro p hp
  unfold mapSet at hp
  by_cases hs : (alookup k m).isSome
  · rw [if_pos hs] at hp
    obtain ⟨q, hq, hpq⟩ := List.mem_map.mp hp
    by_cases hk : q.1 = k
    · rw [if_pos hk] at hpq
      exact Or.inr hpq.symm
    · rw [if_neg hk] at hpq
      exact Or.inl (hpq ▸ hq)
  · rw [if_neg hs] at hp
    rcases List.mem_append.mp hp with h | h
    · exact Or.inl h
    · exact Or.inr (List.mem_singleton.mp h)

theorem mapSet_keys {α : Type} {m : List (String × α)} {k : String} {v : α} :
    ∀ x ∈ (mapSet m k v).map Prod.fst, x ∈ m.map Prod.fst ∨ x = k := by
  intro x hx
  obtain ⟨p, hp, hpx⟩ := List.mem_map.mp hx
  rcases mapSet_mem p hp with h | h
  · exact Or.inl (hpx ▸ List.mem_map_of_mem Prod.fst h)
  · exact Or.inr (by rw [← hpx, h])

theorem buildItemMap_key (repo : String) (items : List PRItem) :
    ∀ p ∈ buildItemMap repo items, p.1 = clusterKey repo p.2 := by
  unfold buildItemMap
  refine foldl_invariant _ (fun (m : List (String × PRItem)) => ∀ p ∈ m, p.1 = clusterKey repo p.2) items []
    (by intro p hp; cases hp) ?_
  intro m item _ hm p hp
  rcases mapSet_mem p hp with h | h
  · exact hm p h
  · rw [h]

theorem nodup_keys_value_unique {α : Type} {l : List (String × α)} {k : String} {v₁ v₂ : α}
    (hnd : (l.map Prod.fst).Nodup) (h1 : (k, v₁) ∈ l) (h2 : (k, v₂) ∈ l) : v₁ = v₂ := by
  induction l with
  | nil => cases h1
  | cons p rest ih =>
    rw [List.map_cons, List.nodup_cons] at hnd
    obtain ⟨hp, hrest⟩ := hnd
    rcases List.mem_cons.mp h1 with rfl | h1'
    · rcases List.mem_cons.mp h2 with he | h2'
      · exact (congrArg Prod.snd he.symm)
      · exact absurd (List.mem_map_of_mem Prod.fst h2') hp
    · rcases List.mem_cons.mp h2 with rfl | h2'
      · exact absurd (List.mem_map_of_mem Prod.fst h1') hp
      · exact ih hrest h1' h2'

theorem filterZeroEmbeddings_excludes {all : List (String × Vec)} {zid : String} {v : Vec}
    (hnd : (all.map Prod.fst).Nodup) (hmem : (zid, v) ∈ all) (hz : isZeroVector v = true) :
    zid ∉ (filterZeroEmbeddings all).map Prod.fst := by
  unfold filterZeroEmbeddings
  refine foldl_invariant _ (fun (m : List (String × Vec)) => zid ∉ m.map Prod.fst) all [] (by simp) ?_
  intro m p hp hm
  by_cases hzp : isZeroVector p.2
  · rw [if_pos hzp]
    exact hm
  · rw [if_neg hzp]
    intro hx
    rcases mapSet_keys zid hx with h | h
    · exact hm h
    · obtain ⟨a, b⟩ := p
      have hazid : a = zid := h.symm
      subst hazid
      have : b = v := nodup_keys_value_unique hnd hp hmem
      rw [this] at hzp
      exact hzp hz

/-! ### Adjacency range lemmas -/

theorem setAdd_mem {s : List String} {x : String} : ∀ y ∈ setAdd s x, y ∈ s ∨ y = x := by
  intro y hy
  unfold setAdd at hy
  by_cases hx : x ∈ s
  · rw [if_pos hx] at hy
    exact Or.inl hy
  · rw [if_neg hx] at hy
    rcases List.mem_append.mp hy with h | h
    · exact Or.inl h
    · exact Or.inr (List.mem_singleton.mp h)

theorem ensureKey_values {adj : AdjMap} {k : String} (P : String → Prop)
    (h : ∀ p ∈ adj, ∀ n ∈ p.2, P n) : ∀ p ∈ ensureKey adj k, ∀ n ∈ p.2, P n := by
  intro p hp
  unfold ensureKey at hp
  by_cases hs : (alookup k adj).isSome
  · rw [if_pos hs] at hp
    exact h p hp
  · rw [if_neg hs] at hp
    rcases List.mem_append.mp hp with hm | hm
    · exact h p hm
    · rw [List.mem_singleton.mp hm]
      intro n hn
      cases hn

theorem addNeighbor_values {adj : AdjMap} {k v : String} (P : String → Prop)
    (h : ∀ p ∈ adj, ∀ n ∈ p.2, P n) (hv : P v) :
    ∀ p ∈ addNeighbor adj k v, ∀ n ∈ p.2, P n := by
  intro p hp n hn
  unfold addNeighbor at hp
  obtain ⟨q, hq, hpq⟩ := List.mem_map.mp hp
  by_cases hk : q.1 = k
  · rw [if_pos hk] at hpq
    rw [← hpq] at hn
    rcases setAdd_mem n hn with hn' | hn'
    · exact h q hq n hn'
    · rw [hn']
      exact hv
  · rw [if_neg hk] at hpq
    exact h q hq n (hpq ▸ hn)

theorem addEdge_values {adj : AdjMap} {a b : String} (P : String → Prop)
    (h : ∀ p ∈ adj, ∀ n ∈ p.2, P n) (ha : P a) (hb : P b) :
    ∀ p ∈ addEdge adj a b, ∀ n ∈ p.2, P n := by
  unfold addEdge
  exact addNeighbor_values P (addNeighbor_values P
    (ensureKey_values P (ensureKey_values P h)) hb) ha

theorem getD_mem_of_lt {α : Type} : ∀ {l : List α} {i : ℕ}, i < l.length → ∀ d : α, l.getD i d ∈ l := by
  intro l
  induction l with
  | nil => intro i h; cases h
  | cons a l ih =>
    intro i h d
    cases i with
    | zero => exact List.mem_cons_self _ _
    | succ i => exact List.mem_cons_of_mem a (ih (Nat.lt_of_succ_lt_succ h) d)

theorem bruteForceAdj_values (sqrtFn : ℚ → ℚ) (embs : List (String × Vec)) (t : ℚ) :
    ∀ p ∈ bruteForceAdj sqrtFn embs t, ∀ n ∈ p.2, n ∈ embs.map Prod.fst := by
  unfold bruteForceAdj
  refine foldl_invariant _
    (fun (adj : AdjMap) => ∀ p ∈ adj, ∀ n ∈ p.2, n ∈ embs.map Prod.fst) _ []
    (by intro p hp; cases hp) ?_
  intro adj i hi hadj
  have hilt : i < (embs.map Prod.fst).length := List.mem_range.mp hi
  refine foldl_invariant _
    (fun (adj : AdjMap) => ∀ p ∈ adj, ∀ n ∈ p.2, n ∈ embs.map Prod.fst) _ adj hadj ?_
  intro adj2 j hj hadj2
  have hjlt : j < (embs.map Prod.fst).length := by
    have := List.mem_range'_1.mp hj
    omega
  dsimp only
  split
  · exact addEdge_values _ hadj2 (getD_mem_of_lt hilt "") (getD_mem_of_lt hjlt "")
  · exact hadj2

theorem annAdj_values (sqrtFn : ℚ → ℚ) (store : VectorStoreView)
    (embs : List (String × Vec)) (t : ℚ) :
    ∀ p ∈ annAdj sqrtFn store embs t, ∀ n ∈ p.2, n ∈ embs.map Prod.fst := by
  unfold annAdj
  refine foldl_invariant _
    (fun (adj : AdjMap) => ∀ p ∈ adj, ∀ n ∈ p.2, n ∈ embs.map Prod.fst) _ []
    (by intro p hp; cases hp) ?_
  intro adj id hid hadj
  refine foldl_invariant _
    (fun (adj : AdjMap) => ∀ p ∈ adj, ∀ n ∈ p.2, n ∈ embs.map Prod.fst) _ adj hadj ?_
  intro adj2 cand _ hadj2
  dsimp only
  split
  · exact hadj2
  · split
    · exact hadj2
    · split
      · next hne hsome _ =>
        refine addEdge_values _ hadj2 hid ?_
        have hs : (alookup cand.1 embs).isSome := by
          cases halk : alookup cand.1 embs with
          | none => rw [halk] at hsome; simp at hsome
          | some _ => rfl
        exact mem_keys_of_alookup_isSome hs
      · exact hadj2

/-! ### Cluster fold invariant -/

theorem toScoredMember_key {powHalf : ℚ → ℚ} {now : ℚ} {itemMap : List (String × PRItem)}
    {repo : String} (hitem : ∀ p ∈ itemMap, p.1 = clusterKey repo p.2)
    {cid : String} {m : ScoredPR} (h : toScoredMember powHalf now itemMap cid = some m) :
    clusterKey repo m.item = cid := by
  unfold toScoredMember at h
  cases halk : alookup cid itemMap with
  | none => rw [halk] at h; cases h
  | some item =>
    rw [halk] at h
    injection h with h2
    have hk := hitem (cid, item) (alookup_mem halk)
    subst h2
    exact hk.symm

theorem sortDescBy_head_spec {α : Type} (f : α → ℚ) (ms : List α) {b : α} {t : List α}
    (h : sortDescBy f ms = b :: t) :
    b ∈ ms ∧ (∀ m ∈ b :: t, f m ≤ f b) ∧ firstMaxBy f ms = some b := by
  have hperm := sortDescBy_perm f ms
  rw [h] at hperm
  have hpw := sortDescBy_pairwise f ms
  rw [h] at hpw
  refine ⟨hperm.mem_iff.mp (List.mem_cons_self b t), pairwise_head_max f hpw, ?_⟩
  rw [← sortDescBy_head_eq_firstMaxBy, h]
  rfl

theorem clusterFold_spec (sqrtFn powHalf : ℚ → ℚ) (now : ℚ)
    (embeddings : List (String × Vec)) (itemMap : List (String × PRItem)) (adjacency : AdjMap)
    (repo : String) (ids : List String)
    (hitem : ∀ p ∈ itemMap, p.1 = clusterKey repo p.2)
    (hadj : ∀ p ∈ adjacency, ∀ n ∈ p.2, n ∈ ids) :
    (∀ c ∈ (ids.foldl (clusterStep sqrtFn powHalf now embeddings itemMap adjacency) ([], [])).2,
      2 ≤ c.items.length ∧
      (∀ m ∈ c.items,
        clusterKey repo m.item ∈
          (ids.foldl (clusterStep sqrtFn powHalf now embeddings itemMap adjacency) ([], [])).1 ∧
        clusterKey repo m.item ∈ ids) ∧
      c.bestPick ∈ c.items ∧
      (∀ m ∈ c.items, m.score ≤ c.bestPick.score) ∧
      c.items.head? = some c.bestPick ∧
      ∃ comp : List String,
        c.items =
          sortDescBy ScoredPR.score (comp.filterMap (toScoredMember powHalf now itemMap)) ∧
        firstMaxBy ScoredPR.score (comp.filterMap (toScoredMember powHalf now itemMap)) =
          some c.bestPick) ∧
    (ids.foldl (clusterStep sqrtFn powHalf now embeddings itemMap adjacency) ([], [])).2.Pairwise
      (fun c₁ c₂ => ∀ m₁ ∈ c₁.items, ∀ m₂ ∈ c₂.items,
        clusterKey repo m₁.item ≠ clusterKey repo m₂.item) := by
  refine foldl_invariant _
    (fun (st : List String × List Cluster) =>
      (∀ c ∈ st.2,
        2 ≤ c.items.length ∧
        (∀ m ∈ c.items, clusterKey repo m.item ∈ st.1 ∧ clusterKey repo m.item ∈ ids) ∧
        c.bestPick ∈ c.items ∧
        (∀ m ∈ c.items, m.score ≤ c.bestPick.score) ∧
        c.items.head? = some c.bestPick ∧
        ∃ comp : List String,
          c.items =
            sortDescBy ScoredPR.score (comp.filterMap (toScoredMember powHalf now itemMap)) ∧
          firstMaxBy ScoredPR.score (comp.filterMap (toScoredMember powHalf now itemMap)) =
            some c.bestPick) ∧
      st.2.Pairwise (fun c₁ c₂ => ∀ m₁ ∈ c₁.items, ∀ m₂ ∈ c₂.items,
        clusterKey repo m₁.item ≠ clusterKey repo m₂.item))
    ids ([], []) ⟨(by intro c hc; cases hc), List.Pairwise.nil⟩ ?_
  intro st id hid hP
  obtain ⟨v, cs⟩ := st
  obtain ⟨hall, hpw⟩ := hP
  unfold clusterStep
  split
  · exact ⟨hall, hpw⟩
  · dsimp only
    obtain ⟨hmono, nw, hcomp, hnw⟩ :=
      bfsAux_spec adjacency (1 + adjTotalSize adjacency) v [id] []
    rw [List.nil_append] at hcomp
    have hrq : bfsComponent adjacency v id =
        bfsAux adjacency (1 + adjTotalSize adjacency) v [id] [] := rfl
    have hcompmem : ∀ x ∈ (bfsComponent adjacency v id).2,
        x ∉ v ∧ x ∈ (bfsComponent adjacency v id).1 ∧ x ∈ ids := by
      intro x hx
      rw [hrq, hcomp] at hx
      obtain ⟨h1, h2, h3⟩ := hnw x hx
      refine ⟨h1, by rw [hrq]; exact h2, ?_⟩
      rcases h3 with h3 | h3
      · rw [List.mem_singleton.mp h3]
        exact hid
      · obtain ⟨p, hp, hnp⟩ := h3
        exact hadj p hp x hnp
    have hvmono : ∀ x ∈ v, x ∈ (bfsComponent adjacency v id).1 := by
      intro x hx
      rw [hrq]
      exact hmono x hx
    split
    · -- component too small: visited advances, clusters unchanged
      refine ⟨?_, hpw⟩
      intro c hc
      obtain ⟨hc1, hc2, hc3⟩ := hall c hc
      exact ⟨hc1, fun m hm => ⟨hvmono _ (hc2 m hm).1, (hc2 m hm).2⟩, hc3⟩
    · set cl := sortDescBy ScoredPR.score
        ((bfsComponent adjacency v id).2.filterMap (toScoredMember powHalf now itemMap))
        with hcldef
      split
      · -- mapped members too few: visited advances, clusters unchanged
        refine ⟨?_, hpw⟩
        intro c hc
        obtain ⟨hc1, hc2, hc3⟩ := hall c hc
        exact ⟨hc1, fun m hm => ⟨hvmono _ (hc2 m hm).1, (hc2 m hm).2⟩, hc3⟩
      · -- emit a new cluster
        next hlen2 =>
        have hmemkeys : ∀ m ∈ cl,
            clusterKey repo m.item ∉ v ∧
            clusterKey repo m.item ∈ (bfsComponent adjacency v id).1 ∧
            clusterKey repo m.item ∈ ids := by
          intro m hm
          rw [hcldef] at hm
          have hm2 : m ∈ (bfsComponent adjacency v id).2.filterMap
              (toScoredMember powHalf now itemMap) :=
            (sortDescBy_perm ScoredPR.score _).mem_iff.mp hm
          obtain ⟨cid, hcid, hsm⟩ := List.mem_filterMap.mp hm2
          have hk := toScoredMember_key hitem hsm
          rw [hk]
          exact hcompmem cid hcid
        obtain ⟨b, t, hcl⟩ : ∃ b t, cl = b :: t := by
          cases hx : cl with
          | nil =>
            rw [hx] at hlen2
            simp at hlen2
          | cons b t => exact ⟨b, t, rfl⟩
        obtain ⟨hbmem, hbmax, hbfirst⟩ := sortDescBy_head_spec ScoredPR.score _ (hcldef ▸ hcl)
        have hheadD : cl.headD emptyScoredPR = b := by
          rw [hcl]
          rfl
        constructor
        · intro c hc
          rcases List.mem_append.mp hc with hc' | hc'
          · obtain ⟨hc1, hc2, hc3⟩ := hall c hc'
            exact ⟨hc1, fun m hm => ⟨hvmono _ (hc2 m hm).1, (hc2 m hm).2⟩, hc3⟩
          · rw [List.mem_singleton.mp hc']
            refine ⟨?_, ?_, ?_, ?_, ?_, ?_⟩
            · show 2 ≤ cl.length
              omega
            · intro m hm
              obtain ⟨_, h2, h3⟩ := hmemkeys m hm
              exact ⟨h2, h3⟩
            · show cl.headD emptyScoredPR ∈ cl
              rw [hheadD, hcl]
              exact List.mem_cons_self b t
            · intro m hm
              show m.score ≤ (cl.headD emptyScoredPR).score
              rw [hheadD]
              exact hbmax m (hcl ▸ hm)
            · show cl.head? = some (cl.headD emptyScoredPR)
              rw [hheadD, hcl]
              rfl
            · refine ⟨(bfsComponent adjacency v id).2, hcldef, ?_⟩
              rw [hheadD]
              exact hbfirst
        · rw [List.pairwise_append]
          refine ⟨hpw, List.pairwise_singleton _ _, ?_⟩
          intro c hc c' hc' m₁ hm₁ m₂ hm₂
          rw [List.mem_singleton.mp hc'] at hm₂
          obtain ⟨_, hc2, _⟩ := hall c hc
          have hkv := (hc2 m₁ hm₁).1
          obtain ⟨hnv, _, _⟩ := hmemkeys m₂ hm₂
          intro heq
          rw [heq] at hkv
          exact hnv hkv

/-! ### Transfer through the final sort and id assignment -/

theorem enum_map_mem (g : Cluster → ℚ) (l : List Cluster) :
    ∀ c ∈ (sortDescBy g l).enum.map (fun p => { p.2 with id := p.1 + 1 }),
      ∃ c₀ ∈ l, c.items = c₀.items ∧ c.bestPick = c₀.bestPick := by
  intro c hc
  obtain ⟨p, hp, hpc⟩ := List.mem_map.mp hc
  have hsnd : p.2 ∈ sortDescBy g l := by
    have h := List.enum_map_snd (sortDescBy g l)
    rw [← h]
    exact List.mem_map_of_mem Prod.snd hp
  have hmem : p.2 ∈ l := (sortDescBy_perm g l).mem_iff.mp hsnd
  exact ⟨p.2, hmem, by rw [← hpc], by rw [← hpc]⟩

theorem pairwise_enumFrom {α : Type} {R : α → α → Prop} :
    ∀ (l : List α) (n : ℕ), l.Pairwise R → (l.enumFrom n).Pairwise (fun p q => R p.2 q.2) := by
  intro l
  induction l with
  | nil =>
    intro n _
    exact List.Pairwise.nil
  | cons a as ih =>
    intro n hpw
    rw [List.pairwise_cons] at hpw
    obtain ⟨ha, has⟩ := hpw
    refine List.Pairwise.cons ?_ (ih (n + 1) has)
    intro q hq
    have hq2 : q.2 ∈ as := by
      have h := List.enumFrom_map_snd (n + 1) as
      rw [← h]
      exact List.mem_map_of_mem Prod.snd hq
    exact ha q.2 hq2

theorem enum_map_pairwise (g : Cluster → ℚ) (l : List Cluster)
    (T : List ScoredPR → List ScoredPR → Prop) (hsymm : ∀ x y, T x y → T y x)
    (hpw : l.Pairwise (fun c₁ c₂ => T c₁.items c₂.items)) :
    ((sortDescBy g l).enum.map (fun p => { p.2 with id := p.1 + 1 })).Pairwise
      (fun c₁ c₂ => T c₁.items c₂.items) := by
  have h1 : (sortDescBy g l).Pairwise (fun c₁ c₂ => T c₁.items c₂.items) := by
    refine ((sortDescBy_perm g l).pairwise_iff ?_).mpr hpw
    intro a b hab
    exact hsymm _ _ hab
  have h2 : (sortDescBy g l).enum.Pairwise (fun p q => T p.2.items q.2.items) := by
    rw [List.enum_eq_enumFrom]
    exact pairwise_enumFrom _ 0 h1
  exact List.Pairwise.map _ (fun p q h => h) h2

theorem adjacencyChoice_values (sqrtFn : ℚ → ℚ) (store : VectorStoreView)
    (embs : List (String × Vec)) (t : ℚ) (c : Bool) :
    ∀ p ∈ (if c then annAdj sqrtFn store embs t else bruteForceAdj sqrtFn embs t),
      ∀ n ∈ p.2, n ∈ embs.map Prod.fst := by
  cases c
  · simpa using bruteForceAdj_values sqrtFn embs t
  · simpa using annAdj_values sqrtFn store embs t

/-! ### C4, C5, C6: clustering engine -/

/-- C4: every cluster returned by one run of `findDuplicateClusters` has at
least two members (singleton components are never emitted: both the
`component.length < 2` and the `clusterItems.length < 2` guards discard them),
and the member sets of distinct clusters are pairwise disjoint (identifying a
member by its composite `repo:type:number` key): the shared visited set of the
breadth-first traversal ensures each id enters at most one component. -/
theorem findDuplicateClusters_disjoint_min2 (sqrtFn powHalf : ℚ → ℚ) (now : ℚ)
    (store : VectorStoreView) (items : List PRItem) (opts : ClusterOptions) :
    (∀ c ∈ findDuplicateClusters sqrtFn powHalf now store items opts, 2 ≤ c.items.length) ∧
    (findDuplicateClusters sqrtFn powHalf now store items opts).Pairwise
      (fun c₁ c₂ => ∀ m₁ ∈ c₁.items, ∀ m₂ ∈ c₂.items,
        clusterKey opts.repo m₁.item ≠ clusterKey opts.repo m₂.item) := by
  have hspec := clusterFold_spec sqrtFn powHalf now (filterZeroEmbeddings store.allEmbeddings)
    (buildItemMap opts.repo items)
    (if decide (5000 ≤ ((filterZeroEmbeddings store.allEmbeddings).map Prod.fst).length)
      then annAdj sqrtFn store (filterZeroEmbeddings store.allEmbeddings) opts.threshold
      else bruteForceAdj sqrtFn (filterZeroEmbeddings store.allEmbeddings) opts.threshold)
    opts.repo ((filterZeroEmbeddings store.allEmbeddings).map Prod.fst)
    (buildItemMap_key opts.repo items)
    (adjacencyChoice_values sqrtFn store (filterZeroEmbeddings store.allEmbeddings)
      opts.threshold _)
  obtain ⟨hall, hpw⟩ := hspec
  constructor
  · intro c hc
    simp only [findDuplicateClusters] at hc
    obtain ⟨c₀, hc₀, hitems, _⟩ := enum_map_mem _ _ c hc
    rw [hitems]
    exact (hall c₀ hc₀).1
  · simp only [findDuplicateClusters]
    exact enum_map_pairwise _ _
      (fun x y => ∀ m₁ ∈ x, ∀ m₂ ∈ y,
        clusterKey opts.repo m₁.item ≠ clusterKey opts.repo m₂.item)
      (fun x y h m₂ hm₂ m₁ hm₁ => (h m₁ hm₁ m₂ hm₂).symm)
      hpw

/-- C5: for every returned cluster, `bestPick` is a member of the cluster, its
per-member derived score (30-day-half-life recency times body length capped at
500 characters, computed by `toScoredMember`) is maximal among the members,
and the tie-break follows the original component iteration order: the member
list is the stable descending sort of the mapped component and `bestPick` is
the first maximum (`firstMaxBy`) of that component order. -/
theorem findDuplicateClusters_bestPick (sqrtFn powHalf : ℚ → ℚ) (now : ℚ)
    (store : VectorStoreView) (items : List PRItem) (opts : ClusterOptions) :
    ∀ c ∈ findDuplicateClusters sqrtFn powHalf now store items opts,
      c.bestPick ∈ c.items ∧
      (∀ m ∈ c.items, m.score ≤ c.bestPick.score) ∧
      c.items.head? = some c.bestPick ∧
      ∃ comp : List String,
        c.items = sortDescBy ScoredPR.score
          (comp.filterMap (toScoredMember powHalf now (buildItemMap opts.repo items))) ∧
        firstMaxBy ScoredPR.score
          (comp.filterMap (toScoredMember powHalf now (buildItemMap opts.repo items))) =
          some c.bestPick := by
  have hspec := clusterFold_spec sqrtFn powHalf now (filterZeroEmbeddings store.allEmbeddings)
    (buildItemMap opts.repo items)
    (if decide (5000 ≤ ((filterZeroEmbeddings store.allEmbeddings).map Prod.fst).length)
      then annAdj sqrtFn store (filterZeroEmbeddings store.allEmbeddings) opts.threshold
      else bruteForceAdj sqrtFn (filterZeroEmbeddings store.allEmbeddings) opts.threshold)
    opts.repo ((filterZeroEmbeddings store.allEmbeddings).map Prod.fst)
    (buildItemMap_key opts.repo items)
    (adjacencyChoice_values sqrtFn store (filterZeroEmbeddings store.allEmbeddings)
      opts.threshold _)
  obtain ⟨hall, _⟩ := hspec
  intro c hc
  simp only [findDuplicateClusters] at hc
  obtain ⟨c₀, hc₀, hitems, hbest⟩ := enum_map_mem _ _ c hc
  obtain ⟨_, _, hin, hmax, hhead, hcomp⟩ := hall c₀ hc₀
  rw [hitems, hbest]
  exact ⟨hin, hmax, hhead, hcomp⟩

/-- C6: no item whose stored embedding is a zero vector ever appears as a
member of a returned cluster: the zero-vector filter removes its id before
graph construction, edges only connect surviving ids, and components only
contain ids reachable from surviving ids.  (Unique embedding keys, as a real
store guarantees, are assumed.) -/
theorem findDuplicateClusters_excludes_zero_vectors (sqrtFn powHalf : ℚ → ℚ) (now : ℚ)
    (store : VectorStoreView) (items : List PRItem) (opts : ClusterOptions)
    (hnd : (store.allEmbeddings.map Prod.fst).Nodup)
    (zid : String) (vv : Vec) (hmem : (zid, vv) ∈ store.allEmbeddings)
    (hz : isZeroVector vv = true) :
    ∀ c ∈ findDuplicateClusters sqrtFn powHalf now store items opts,
      ∀ m ∈ c.items, clusterKey opts.repo m.item ≠ zid := by
  have hspec := clusterFold_spec sqrtFn powHalf now (filterZeroEmbeddings store.allEmbeddings)
    (buildItemMap opts.repo items)
    (if decide (5000 ≤ ((filterZeroEmbeddings store.allEmbeddings).map Prod.fst).length)
      then annAdj sqrtFn store (filterZeroEmbeddings store.allEmbeddings) opts.threshold
      else bruteForceAdj sqrtFn (filterZeroEmbeddings store.allEmbeddings) opts.threshold)
    opts.repo ((filterZeroEmbeddings store.allEmbeddings).map Prod.fst)
    (buildItemMap_key opts.repo items)
    (adjacencyChoice_values sqrtFn store (filterZeroEmbeddings store.allEmbeddings)
      opts.threshold _)
  obtain ⟨hall, _⟩ := hspec
  intro c hc m hm
  simp only [findDuplicateClusters] at hc
  obtain ⟨c₀, hc₀, hitems, _⟩ := enum_map_mem _ _ c hc
  rw [hitems] at hm
  obtain ⟨_, hkeys, _⟩ := hall c₀ hc₀
  have hids := (hkeys m hm).2
  intro heq
  rw [heq] at hids
  exact filterZeroEmbeddings_excludes hnd hmem hz hids

unseal Rat.add Rat.mul Rat.sub Rat.inv Rat.ofScientific in
/-- Witness for C4: the concrete run (two items with identical embeddings, one
zero-vector item) yields a first cluster with at least two members. -/
theorem findDuplicateClusters_disjoint_min2_witness :
    2 ≤ ((findDuplicateClusters (fun q => q) (fun _ => 1) 0 witView
      [witItem1, witItem2, witItem3] witOpts).headD emptyCluster).items.length :=
  (findDuplicateClusters_disjoint_min2 (fun q => q) (fun _ => 1) 0 witView
    [witItem1, witItem2, witItem3] witOpts).1 _ (by decide)

unseal Rat.add Rat.mul Rat.sub Rat.inv Rat.ofScientific in
/-- Witness for C5: in the concrete run, the first cluster's best pick is one
of its members and its per-member derived score is at least that of the first
listed member. -/
theorem findDuplicateClusters_bestPick_witness :
    ((findDuplicateClusters (fun q => q) (fun _ => 1) 0 witView
      [witItem1, witItem2, witItem3] witOpts).headD emptyCluster).bestPick ∈
      ((findDuplicateClusters (fun q => q) (fun _ => 1) 0 witView
        [witItem1, witItem2, witItem3] witOpts).headD emptyCluster).items ∧
    (((findDuplicateClusters (fun q => q) (fun _ => 1) 0 witView
      [witItem1, witItem2, witItem3] witOpts).headD emptyCluster).items.headD
        emptyScoredPR).score ≤
      ((findDuplicateClusters (fun q => q) (fun _ => 1) 0 witView
        [witItem1, witItem2, witItem3] witOpts).headD emptyCluster).bestPick.score :=
  ⟨(findDuplicateClusters_bestPick (fun q => q) (fun _ => 1) 0 witView
      [witItem1, witItem2, witItem3] witOpts
      ((findDuplicateClusters (fun q => q) (fun _ => 1) 0 witView
        [witItem1, witItem2, witItem3] witOpts).headD emptyCluster) (by decide)).1,
   (findDuplicateClusters_bestPick (fun q => q) (fun _ => 1) 0 witView
      [witItem1, witItem2, witItem3] witOpts
      ((findDuplicateClusters (fun q => q) (fun _ => 1) 0 witView
        [witItem1, witItem2, witItem3] witOpts).headD emptyCluster) (by decide)).2.1
      (((findDuplicateClusters (fun q => q) (fun _ => 1) 0 witView
        [witItem1, witItem2, witItem3] witOpts).headD emptyCluster).items.headD emptyScoredPR)
      (by decide)⟩

unseal Rat.add Rat.mul Rat.sub Rat.inv Rat.ofScientific in
/-- Witness for C6: in the concrete run, the zero-vector item `r:pr:3` is not
the first member of the first cluster (applied at every hypothesis of the
theorem, which excludes it from all members of all clusters). -/
theorem findDuplicateClusters_excludes_zero_vectors_witness :
    clusterKey "r" ((((findDuplicateClusters (fun q => q) (fun _ => 1) 0 witView
      [witItem1, witItem2, witItem3] witOpts).headD emptyCluster).items.headD
        emptyScoredPR).item) ≠ "r:pr:3" :=
  findDuplicateClusters_excludes_zero_vectors (fun q => q) (fun _ => 1) 0 witView
    [witItem1, witItem2, witItem3] witOpts (by decide) "r:pr:3" [0, 0] (by decide) (by decide)
    ((findDuplicateClusters (fun q => q) (fun _ => 1) 0 witView
      [witItem1, witItem2, witItem3] witOpts).headD emptyCluster) (by decide)
    (((findDuplicateClusters (fun q => q) (fun _ => 1) 0 witView
      [witItem1, witItem2, witItem3] witOpts).headD emptyCluster).items.headD emptyScoredPR)
    (by decide)

/-! ### C7: vision alignment -/

theorem le_foldl_max : ∀ (l : List ℚ) (i : ℚ), i ≤ l.foldl max i := by
  intro l
  induction l with
  | nil => intro i; exact le_refl i
  | cons a l ih =>
    intro i
    rw [List.foldl_cons]
    exact le_trans (le_max_left i a) (ih (max i a))

theorem visionFold_spec (sqrtFn : ℚ → ℚ) (pr : Vec) :
    ∀ (chunks : List VisionChunk) (qs : List ℚ),
      chunks.map (fun c => cosineSimilarity sqrtFn pr c.embedding) = qs.map some →
      ∀ (r : ℚ) (s : String),
        (chunks.foldl (fun (acc : JSNum × String) chunk =>
          let sim := cosineSimilarity sqrtFn pr chunk.embedding
          if jlt acc.1 sim then (sim, chunk.heading) else acc) (some r, s)).1 =
            some (qs.foldl max r) ∧
        ((chunks.foldl (fun (acc : JSNum × String) chunk =>
            let sim := cosineSimilarity sqrtFn pr chunk.embedding
            if jlt acc.1 sim then (sim, chunk.heading) else acc) (some r, s)).2 = s ∧
          qs.foldl max r = r ∨
         ∃ c ∈ chunks,
           (chunks.foldl (fun (acc : JSNum × String) chunk =>
             let sim := cosineSimilarity sqrtFn pr chunk.embedding
             if jlt acc.1 sim then (sim, chunk.heading) else acc) (some r, s)).2 = c.heading ∧
           cosineSimilarity sqrtFn pr c.embedding = some (qs.foldl max r) ∧
           r < qs.foldl max r) := by
  intro chunks
  induction chunks with
  | nil =>
    intro qs hqs r s
    have hq : qs = [] := by
      cases qs with
      | nil => rfl
      | cons q qs' => simp at hqs
    subst hq
    exact ⟨rfl, Or.inl ⟨rfl, rfl⟩⟩
  | cons c cs ih =>
    intro qs hqs r s
    cases qs with
    | nil => simp at hqs
    | cons q qs' =>
      rw [List.map_cons, List.map_cons, List.cons_eq_cons] at hqs
      obtain ⟨hsimc, hrest⟩ := hqs
      rw [List.foldl_cons]
      by_cases hrq : r < q
      · have hstep : (let sim := cosineSimilarity sqrtFn pr c.embedding
            if jlt ((some r : JSNum), s).1 sim then (sim, c.heading)
            else ((some r : JSNum), s)) = ((some q : JSNum), c.heading) := by
          simp only [hsimc]
          simp [jlt, hrq]
        rw [hstep,
          show List.foldl max r (q :: qs') = List.foldl max q qs' from by
            rw [List.foldl_cons, max_eq_right (le_of_lt hrq)]]
        obtain ⟨ih1, ih2⟩ := ih qs' hrest q c.heading
        refine ⟨ih1, ?_⟩
        rcases ih2 with ⟨heq, hfix⟩ | ⟨c', hc', heq, hsim', hlt'⟩
        · refine Or.inr ⟨c, List.mem_cons_self c cs, heq, ?_, ?_⟩
          · rw [hfix, hsimc]
          · rw [hfix]
            exact hrq
        · exact Or.inr ⟨c', List.mem_cons_of_mem c hc', heq, hsim', lt_trans hrq hlt'⟩
      · have hstep : (let sim := cosineSimilarity sqrtFn pr c.embedding
            if jlt ((some r : JSNum), s).1 sim then (sim, c.heading)
            else ((some r : JSNum), s)) = ((some r : JSNum), s) := by
          simp only [hsimc]
          simp [jlt, hrq]
        rw [hstep,
          show List.foldl max r (q :: qs') = List.foldl max r qs' from by
            rw [List.foldl_cons, max_eq_left (not_lt.mp hrq)]]
        obtain ⟨ih1, ih2⟩ := ih qs' hrest r s
        refine ⟨ih1, ?_⟩
        rcases ih2 with ⟨heq, hfix⟩ | ⟨c', hc', heq, hsim', hlt'⟩
        · exact Or.inl ⟨heq, hfix⟩
        · exact Or.inr ⟨c', List.mem_cons_of_mem c hc', heq, hsim', hlt'⟩

unseal Rat.add Rat.mul Rat.sub Rat.inv Rat.ofScientific in
/-- C7 as stated is false on the code: for the item embedding `[1, 0]` and the
single chunk "Goal 1" with embedding `[-1, 0]`, the maximum cosine similarity
over the chunks is `-1`, but `scoreVisionAlignment` returns score `0` (the
running maximum starts at `0` and only strictly positive similarities can
replace it) and `matchedSection = ""` (no chunk heading is ever recorded), so
the returned score is not the maximum similarity and `matchedSection` is not
the heading of a chunk attaining it. -/
theorem scoreVisionAlignment_negative_sim_counterexample :
    cosineSimilarity (fun q => q) [1, 0] oppositeChunk.embedding = some (-1) ∧
    (scoreVisionAlignment (fun q => q) [1, 0] [oppositeChunk] defaultConfig).score = some 0 ∧
    (scoreVisionAlignment (fun q => q) [1, 0] [oppositeChunk]
      defaultConfig).matchedSection = "" := by
  decide

/-- C7 amended: `scoreVisionAlignment` returns `max 0 m` where `m` is the
maximum cosine similarity between the item embedding and the chunks (so a
non-positive maximum is clamped to `0`), and `matchedSection` is the heading
of a chunk attaining `m` when `m > 0`, and stays `""` otherwise.  The
hypothesis supplies the (non-`NaN`) similarity values `qs` of the chunks in
order; `qs.foldl max 0` is exactly `max 0 m`. -/
theorem scoreVisionAlignment_clamped_max (sqrtFn : ℚ → ℚ) (pr : Vec)
    (chunks : List VisionChunk) (config : PrismConfig) (qs : List ℚ)
    (hqs : chunks.map (fun c => cosineSimilarity sqrtFn pr c.embedding) = qs.map some) :
    (scoreVisionAlignment sqrtFn pr chunks config).score = some (qs.foldl max 0) ∧
    (0 < qs.foldl max 0 →
      ∃ c ∈ chunks,
        c.heading = (scoreVisionAlignment sqrtFn pr chunks config).matchedSection ∧
        cosineSimilarity sqrtFn pr c.embedding = some (qs.foldl max 0)) ∧
    (qs.foldl max 0 ≤ 0 →
      (scoreVisionAlignment sqrtFn pr chunks config).matchedSection = "") := by
  obtain ⟨h1, h2⟩ := visionFold_spec sqrtFn pr chunks qs hqs 0 ""
  refine ⟨h1, ?_, ?_⟩
  · intro hpos
    rcases h2 with ⟨_, hfix⟩ | ⟨c, hc, heq, hsim, _⟩
    · rw [hfix] at hpos
      exact absurd hpos (lt_irrefl 0)
    · exact ⟨c, hc, heq.symm, hsim⟩
  · intro hle
    rcases h2 with ⟨heq, _⟩ | ⟨_, _, _, _, hlt⟩
    · exact heq
    · exact absurd hlt (not_lt.mpr hle)

unseal Rat.add Rat.mul Rat.sub Rat.inv Rat.ofScientific in
/-- Witness for the amended C7: one chunk with the same embedding as the item
gives score `1`. -/
theorem scoreVisionAlignment_clamped_max_witness :
    (scoreVisionAlignment (fun q => q) [1, 0] [matchingChunk] defaultConfig).score =
      some (([1] : List ℚ).foldl max 0) :=
  (scoreVisionAlignment_clamped_max (fun q => q) [1, 0] [matchingChunk] defaultConfig [1]
    (by decide)).1

/-! ### C8, C9: vector store -/

/-- C9: opening a `VectorStore` whose `vec_items` table is already populated
with vectors of dimensionality D, under a configuration with D' ≠ D, makes
`init` (run by the constructor before anything else can happen) throw the
dimension-mismatch error: construction fails, so no write against the store
can ever be issued, let alone succeed. -/
theorem init_dimension_mismatch (db : DBFile) (dims : ℕ) (model : Option String)
    (row : String × Vec)
    (htable : db.hasVecTable = true) (hrow : db.vecRows.head? = some row)
    (hne : row.2.length ≠ dims) :
    VectorStore.init dims model db = Except.error dimensionMismatchMsg := by
  unfold VectorStore.init
  simp [htable, hrow, hne]

unseal Rat.add Rat.mul Rat.sub Rat.inv Rat.ofScientific in
/-- Witness for C9: a store holding one 3-dimensional vector opened with a
1024-dimensional configuration errors out. -/
theorem init_dimension_mismatch_witness :
    VectorStore.init 1024 none storeDB3 = Except.error dimensionMismatchMsg :=
  init_dimension_mismatch storeDB3 1024 none ("r:pr:1", [1/10, 2/10, 3/10])
    (by decide) (by decide) (by decide)

unseal Rat.add Rat.mul Rat.sub Rat.inv Rat.ofScientific in
/-- C8 fails on the code: `VectorStore.upsert` issues three separately
prepared and autocommitted statements with no enclosing transaction — upsert
of the `items` row, `DELETE FROM vec_items`, `INSERT INTO vec_items`.  At the
failing input (a store whose `vec_items` column is declared `float[3]`,
upserting the stored item with a 2-wide embedding, which the `vec0` table
rejects), the insert throws after the first two statements have committed: the
persisted state carries the new metadata (title "new title", updated
timestamp) with no embedding row at all, while the original state had the old
metadata and a stored embedding.  The persisted state is changed by the failed
operation and metadata/embedding are observably out of sync, contradicting
the claimed atomicity. -/
theorem upsert_partial_commit :
    VectorStore.upsert storeDB3 badWidthItem = Except.error upsertFailState ∧
    upsertFailState ≠ storeDB3 ∧
    upsertFailState.itemRows.map ItemRow.title = ["new title"] ∧
    alookup "r:pr:1" upsertFailState.vecRows = none ∧
    alookup "r:pr:1" storeDB3.vecRows = some [1/10, 2/10, 3/10] := by
  refine ⟨rfl, ?_, rfl, rfl, rfl⟩
  decide
